import Mathlib

/-!
Verification of the edge-geometry storage and reindexing subsystem, the binary
morphological propagation operators, the component selection logic and the
mesh-cache discipline of `ClearMap/Analysis/Graphs/GraphGt.py` (class `Graph`).

Modelling conventions:
* numpy arrays are Lean lists; a 2-D array of per-sample rows is a list of
  abstract samples `α` (row order preserved), so `reshape`/`vstack` round
  trips become the identity / `List.flatten`;
* numpy integer arrays are modelled over `Int` (int64; overflow is out of
  reach for the quantities involved);
* python exceptions are modelled with `Except GErr`;
* all start/end indices produced by the code are non-negative, so python
  slicing `a[s:e]` is `take`/`drop` on the list.
-/

namespace GraphGt

/-- Python exceptions raised by the adapter or the libraries it calls. -/
inductive GErr where
  | keyError (name : String)
  | valueError (msg : String)
  | notImplementedError (msg : String)
  | consistencyError (msg : String)
  | indexError (msg : String)
  deriving Repr, DecidableEq

/-- `cs` starts with `ds` (character lists). -/
def charsStartWith : List Char → List Char → Bool
  | _, [] => true
  | [], _ :: _ => false
  | c :: cs, d :: ds => c == d && charsStartWith cs ds

/-- `str.startswith(pfx)` (kernel-computable model of `String.startsWith`). -/
def strStartsWith (s pfx : String) : Bool := charsStartWith s.data pfx.data

/-- Key membership in a property table (python `name in mapping`). -/
def alistContains (ps : List (String × β)) (k : String) : Bool :=
  ps.any (fun p => p.1 == k)

/-- Key lookup in a property table (python `mapping[name]`, `none` = KeyError). -/
def alistLookup (ps : List (String × β)) (k : String) : Option β :=
  (ps.find? (fun p => p.1 == k)).map Prod.snd

/-- `mapping[name] = value`: overwrite in place if present, append otherwise. -/
def alistInsert (ps : List (String × β)) (k : String) (v : β) : List (String × β) :=
  if alistContains ps k then ps.map (fun p => if p.1 == k then (k, v) else p)
  else ps ++ [(k, v)]

/-- `del mapping[name]` (caller checks presence). -/
def alistRemove (ps : List (String × β)) (k : String) : List (String × β) :=
  ps.filter (fun p => p.1 != k)

/-- Running totals of a list starting from `acc`. -/
def cumsumFrom (acc : Int) : List Int → List Int
  | [] => []
  | x :: xs => (acc + x) :: cumsumFrom (acc + x) xs

/-- `np.cumsum` over an int array. -/
def cumsum (xs : List Int) : List Int := cumsumFrom 0 xs

/-- `np.array([np.hstack([0, ind[:-1]]), ind]).T`: pair each running total with
its predecessor (0 in front). -/
def rangesFromCumsum (ind : List Int) : List (Int × Int) :=
  List.zip (0 :: ind.dropLast) ind

/-- The canonical packing law applied by `_set_edge_geometry_graph` (lines
609-610) and `_edge_geometry_indices_edge` (lines 536-537): per-edge
half-open index ranges from per-edge lengths. -/
def computeRanges (lens : List Int) : List (Int × Int) :=
  rangesFromCumsum (cumsum lens)

/-- The range compaction of `resize_edge_geometry` (lines 635-637):
`indices_new = np.diff(indices, axis=1)[:, 0]; np.cumsum; pair with 0-shift`. -/
def compactRanges (indices : List (Int × Int)) : List (Int × Int) :=
  computeRanges (indices.map (fun p => p.2 - p.1))

/-- python slice `xs[s:e]` for the non-negative indices used by this module. -/
def sliceArr (xs : List α) (s e : Int) : List α :=
  (xs.take e.toNat).drop s.toNat

/-- numpy slice assignment `dst[start:start+len(src)] = src`. -/
def writeRange (dst : List α) (start : Nat) (src : List α) : List α :=
  dst.take start ++ src ++ dst.drop (start + src.length)

/-- numpy boolean-mask selection `xs[mask]`. -/
def filterMask (xs : List β) (mask : List Bool) : List β :=
  ((xs.zip mask).filter (fun p => p.2)).map Prod.fst

/-- The copy loop of `remap_array_ranges`: for every pair of an old and a new
range, copy `old_array[old.start:old.end]` into the destination at the new
range's start. -/
def remapWrites (old_array : List α) : List ((Int × Int) × (Int × Int)) → List α → List α
  | [], dst => dst
  | pr :: prs, dst =>
      remapWrites old_array prs
        (writeRange dst pr.2.1.toNat (sliceArr old_array pr.1.1 pr.1.2))

/-- Modelled from the spec: `remap_array_ranges(array, new_array, ranges,
new_ranges)` from `ClearMap.Utils.array_utils`, whose source is not included
here.  Per spec 4.2 it copies, for each `i`,
`array[ranges[i].start:ranges[i].end]` into
`new_array[new_ranges[i].start:new_ranges[i].end]`, and it validates that
every old range has the same width as the corresponding new range *before*
committing any write, failing with a `ConsistencyError` on a mismatch. -/
def remap_array_ranges (old_array new_array : List α)
    (old_ranges new_ranges : List (Int × Int)) : Except GErr (List α) :=
  if old_ranges.length == new_ranges.length
      && (old_ranges.zip new_ranges).all
          (fun pr => pr.1.2 - pr.1.1 == pr.2.2 - pr.2.1) then
    .ok (remapWrites old_array (old_ranges.zip new_ranges) new_array)
  else
    .error (.consistencyError "remap_array_ranges: range length mismatch")

/-- A geometry payload, as passed to / returned by the geometry accessors:
either a list of per-edge sample arrays or one flat sample array. -/
inductive GeomVal (α : Type) where
  | lst (vs : List (List α))
  | flat (xs : List α)
  deriving Repr, DecidableEq

/-- The value of an edge property used by the geometry subsystem: the
`(start, end)` index pairs (`vector<int64_t>`) or per-edge variable-length
sample arrays (`vector<double>` / object). -/
inductive EPropVal (α : Type) where
  | ipairs (xs : List (Int × Int))
  | avecs (xs : List (List α))
  deriving Repr, DecidableEq

/-- The state of a `Graph` relevant to the edge-geometry subsystem: the
vertex count and edge list (held by the graph_tool base), the
`edge_geometry_type` flag (kept as its own field; it lives in the graph
property table in the source and is excluded from the geometry property
names there by the explicit `p != 'edge_geometry_type'` test), the graph
property table holding the packed flat arrays, and the edge property table
holding the `indices` pairs resp. the scattered per-edge arrays. -/
structure EGraph (α : Type) where
  nVertices : Nat
  edges : List (Nat × Nat)
  edgeGeometryType : String
  graphProps : List (String × List α)
  edgeProps : List (String × EPropVal α)
  deriving Repr, DecidableEq

/-- `graph_property` (lines 331-332): `self._base.graph_properties[name]`. -/
def graph_property (g : EGraph α) (name : String) : Except GErr (List α) :=
  match alistLookup g.graphProps name with
  | some v => .ok v
  | none => .error (.keyError name)

/-- `set_graph_property` (lines 350-355): raises if the name is absent.
(The source also calls `invalidate_caches`; the mesh cache is modelled
separately, see `CacheModel`.) -/
def set_graph_property (g : EGraph α) (name : String) (v : List α) :
    Except GErr (EGraph α) :=
  if alistContains g.graphProps name then
    .ok { g with graphProps := alistInsert g.graphProps name v }
  else
    .error (.valueError ("Graph has no property named " ++ name))

/-- `define_graph_property` (lines 357-361): set if present, add otherwise;
either way the table now maps `name` to `v`. -/
def define_graph_property (g : EGraph α) (name : String) (v : List α) : EGraph α :=
  { g with graphProps := alistInsert g.graphProps name v }

/-- `remove_graph_property` (lines 363-367). -/
def remove_graph_property (g : EGraph α) (name : String) : Except GErr (EGraph α) :=
  if alistContains g.graphProps name then
    .ok { g with graphProps := alistRemove g.graphProps name }
  else
    .error (.valueError ("Graph does not have graph property named " ++ name))

/-- `edge_property` for a whole property (lines 266-271):
`self._base.edge_properties[name]`. -/
def edge_property (g : EGraph α) (name : String) : Except GErr (EPropVal α) :=
  match alistLookup g.edgeProps name with
  | some v => .ok v
  | none => .error (.keyError name)

/-- `set_edge_property` with `edge=None` (lines 285-293): raises if absent. -/
def set_edge_property (g : EGraph α) (name : String) (v : EPropVal α) :
    Except GErr (EGraph α) :=
  if alistContains g.edgeProps name then
    .ok { g with edgeProps := alistInsert g.edgeProps name v }
  else
    .error (.valueError ("Graph has no edge property with name " ++ name))

/-- `define_edge_property` with `edge=None` (lines 295-304). -/
def define_edge_property (g : EGraph α) (name : String) (v : EPropVal α) : EGraph α :=
  { g with edgeProps := alistInsert g.edgeProps name v }

/-- `remove_edge_property` (lines 306-310): raises if absent. -/
def remove_edge_property (g : EGraph α) (name : String) : Except GErr (EGraph α) :=
  if alistContains g.edgeProps name then
    .ok { g with edgeProps := alistRemove g.edgeProps name }
  else
    .error (.valueError ("Graph does not have edge property with name " ++ name))

/-- `edge_geometry_property_name` (lines 483-484): `f'{prefix}_{name}'`. -/
def edge_geometry_property_name (name : String) : String :=
  "edge_geometry" ++ "_" ++ name

/-- `edge_geometry_property_names` (lines 486-494): the *full* stored names
(graph-property names in packed mode, edge-property names in scattered mode)
that start with `edge_geometry_`, excluding the type flag. -/
def edge_geometry_property_names (g : EGraph α) : List String :=
  let pfx := edge_geometry_property_name ""
  let props := if g.edgeGeometryType == "graph" then g.graphProps.map Prod.fst
               else g.edgeProps.map Prod.fst
  props.filter (fun p => strStartsWith p pfx && p != "edge_geometry_type")

/-- `has_edge_geometry` (lines 509-510). -/
def has_edge_geometry (g : EGraph α) (name : String) : Bool :=
  (edge_geometry_property_names g).contains (edge_geometry_property_name name)

/-- `_edge_geometry_indices_name_graph` (lines 578-579). -/
def edge_geometry_indices_name_graph : String :=
  edge_geometry_property_name "indices"

/-- `_edge_geometry_indices_graph` with `edge=None` (lines 581-582). -/
def edge_geometry_indices_graph (g : EGraph α) : Except GErr (List (Int × Int)) := do
  match ← edge_property g edge_geometry_indices_name_graph with
  | .ipairs xs => .ok xs
  | .avecs _ => .error (.valueError "edge geometry indices have unexpected type")

/-- `_set_edge_geometry_indices_graph` with `edge=None` (lines 584-585). -/
def set_edge_geometry_indices_graph (g : EGraph α) (indices : List (Int × Int)) :
    Except GErr (EGraph α) :=
  set_edge_property g edge_geometry_indices_name_graph (.ipairs indices)

/-- `_edge_geometry_graph` with `edge=None`, `return_indices=False`
(lines 587-598): note line 588 prefixes the supplied name (again). -/
def edge_geometry_graph (g : EGraph α) (name : String) (asList : Bool) :
    Except GErr (GeomVal α) := do
  let name := edge_geometry_property_name name
  let values ← graph_property g name
  if asList then
    let indices ← edge_geometry_indices_graph g
    .ok (.lst (indices.map (fun p => sliceArr values p.1 p.2)))
  else
    .ok (.flat values)

/-- `_set_edge_geometry_graph` (lines 604-616): single-edge writes raise
`NotImplementedError`; a list payload is packed (`np.vstack`) and, when no
explicit indices are given, indices are computed by the packing law. -/
def set_edge_geometry_graph (g : EGraph α) (name : String) (values : GeomVal α)
    (indices : Option (List (Int × Int))) (edge : Option Nat) :
    Except GErr (EGraph α) :=
  if edge.isSome then
    .error (.notImplementedError
      "Setting individual edge geometries not implemented for graph mode!")
  else
    let vi : List α × Option (List (Int × Int)) :=
      match values with
      | .lst vs =>
        match indices with
        | none => (vs.flatten, some (computeRanges (vs.map (fun v => (v.length : Int)))))
        | some idx => (vs.flatten, some idx)
      | .flat xs => (xs, indices)
    let g :=
      match vi.2 with
      | some idx => define_edge_property g edge_geometry_indices_name_graph (.ipairs idx)
      | none => g
    .ok (define_graph_property g (edge_geometry_property_name name) vi.1)

/-- `_remove_edge_geometry_graph` (lines 618-621): silently skips an absent
name. -/
def remove_edge_geometry_graph (g : EGraph α) (name : String) : EGraph α :=
  let name := edge_geometry_property_name name
  if alistContains g.graphProps name then
    { g with graphProps := alistRemove g.graphProps name }
  else g

/-- `_remove_edge_geometry_indices_graph` (lines 623-626). -/
def remove_edge_geometry_indices_graph (g : EGraph α) : EGraph α :=
  let name := edge_geometry_indices_name_graph
  if alistContains g.edgeProps name then
    { g with edgeProps := alistRemove g.edgeProps name }
  else g

/-- `_edge_geometry_vector_edge` with `edge=None` (lines 517-532); the numpy
`reshape((-1, ndim))` is the identity on our row lists, `np.vstack` is
`List.flatten`. -/
def edge_geometry_vector_edge (g : EGraph α) (name : String) (asList : Bool) :
    Except GErr (GeomVal α) := do
  let name := edge_geometry_property_name name
  match ← edge_property g name with
  | .avecs vs => if asList then .ok (.lst vs) else .ok (.flat vs.flatten)
  | .ipairs _ => .error (.valueError "edge geometry has unexpected type")

/-- `_edge_geometry_scalar_edge` with `edge=None` (lines 513-515). -/
def edge_geometry_scalar_edge (g : EGraph α) (name : String) :
    Except GErr (GeomVal α) := do
  let name := edge_geometry_property_name name
  match ← edge_property g name with
  | .avecs vs => .ok (.lst vs)
  | .ipairs _ => .error (.valueError "edge geometry has unexpected type")

/-- `_edge_geometry_edge` with `edge=None`, `return_indices=False`
(lines 540-549). -/
def edge_geometry_edge (g : EGraph α) (name : String) (asList : Bool) :
    Except GErr (GeomVal α) :=
  if name == "coordinates" || name == "mesh" then
    edge_geometry_vector_edge g name asList
  else
    edge_geometry_scalar_edge g name

/-- `_set_edge_geometry_vector_edge` (lines 555-562).  With `edge=None` and no
indices the incoming value must be a list of per-edge arrays (each flattened,
an identity here); with indices, the flat payload is cut by the ranges.  A
single-edge write stores one edge's array (creating the property first if
needed, as `define_edge_property` does). -/
def set_edge_geometry_vector_edge (g : EGraph α) (name : String)
    (values : GeomVal α) (indices : Option (List (Int × Int)))
    (edge : Option Nat) : Except GErr (EGraph α) :=
  let name := edge_geometry_property_name name
  match edge with
  | none =>
    match indices, values with
    | none, .lst vs => .ok (define_edge_property g name (.avecs vs))
    | none, .flat _ =>
        -- iterating a flat numpy array yields scalars; `v.reshape(-1)` on a
        -- scalar raises
        .error (.valueError "expected a list of per-edge arrays")
    | some idx, .flat xs =>
        .ok (define_edge_property g name
          (.avecs (idx.map (fun p => sliceArr xs p.1 p.2))))
    | some _, .lst _ =>
        -- a python-list slice has no `.reshape`; AttributeError
        .error (.valueError "expected a flat array with indices")
  | some e =>
    match values with
    | .flat v =>
      match alistLookup g.edgeProps name with
      | some (.avecs vs) =>
          .ok { g with edgeProps := alistInsert g.edgeProps name (.avecs (vs.set e v)) }
      | some (.ipairs _) => .error (.valueError "edge geometry has unexpected type")
      | none =>
          .ok { g with edgeProps := (alistInsert g.edgeProps name
              (.avecs ((List.replicate g.edges.length []).set e v))) }
    | .lst _ => .error (.valueError "single edge write expects one array")

/-- `_set_edge_geometry_scalar_edge` (lines 551-553): stores per-edge
variable-length arrays directly as an edge property.  A flat per-sample
payload has length `n_samples ≠ n_edges` in every geometry use, which the
underlying typed property-map assignment rejects. -/
def set_edge_geometry_scalar_edge (g : EGraph α) (name : String)
    (values : GeomVal α) (edge : Option Nat) : Except GErr (EGraph α) :=
  let name := edge_geometry_property_name name
  match edge, values with
  | none, .lst vs => .ok (define_edge_property g name (.avecs vs))
  | none, .flat _ => .error (.valueError "dimension mismatch for edge property")
  | some e, .flat v =>
    match alistLookup g.edgeProps name with
    | some (.avecs vs) =>
        .ok { g with edgeProps := alistInsert g.edgeProps name (.avecs (vs.set e v)) }
    | some (.ipairs _) => .error (.valueError "edge geometry has unexpected type")
    | none =>
        .ok { g with edgeProps := (alistInsert g.edgeProps name
            (.avecs ((List.replicate g.edges.length []).set e v))) }
  | some _, .lst _ => .error (.valueError "single edge write expects one array")

/-- `_set_edge_geometry_edge` (lines 564-570). -/
def set_edge_geometry_edge (g : EGraph α) (name : String) (values : GeomVal α)
    (indices : Option (List (Int × Int))) (edge : Option Nat) :
    Except GErr (EGraph α) :=
  if name == "coordinates" || name == "mesh" then
    set_edge_geometry_vector_edge g name values indices edge
  else
    set_edge_geometry_scalar_edge g name values edge

/-- `_remove_edge_geometry_edge` (lines 572-574): no presence guard, so an
absent name raises inside `remove_edge_property`. -/
def remove_edge_geometry_edge (g : EGraph α) (name : String) :
    Except GErr (EGraph α) :=
  remove_edge_property g (edge_geometry_property_name name)

/-- `edge_geometry` with `edge=None`, `return_indices=False` (lines 671-675). -/
def edge_geometry (g : EGraph α) (name : String) (asList : Bool) :
    Except GErr (GeomVal α) :=
  if g.edgeGeometryType == "graph" then edge_geometry_graph g name asList
  else edge_geometry_edge g name asList

/-- `set_edge_geometry` (lines 677-695). -/
def set_edge_geometry (g : EGraph α) (name : String) (values : GeomVal α)
    (indices : Option (List (Int × Int))) (edge : Option Nat) :
    Except GErr (EGraph α) :=
  if g.edgeGeometryType == "graph" then
    set_edge_geometry_graph g name values indices edge
  else
    set_edge_geometry_edge g name values indices edge

/-- `edge_geometry_lengths` (lines 716-722). -/
def edge_geometry_lengths (g : EGraph α) (name : String) :
    Except GErr (List Int) := do
  if g.edgeGeometryType == "graph" then
    let indices ← edge_geometry_indices_graph g
    .ok (indices.map (fun p => p.2 - p.1))
  else
    match ← edge_geometry g name true with
    | .lst vs => .ok (vs.map (fun v => (v.length : Int)))
    | .flat _ => .error (.valueError "edge geometry has unexpected type")

/-- `_edge_geometry_indices_edge` (lines 534-538): the packing law applied to
the per-edge lengths of the scattered store. -/
def edge_geometry_indices_edge (g : EGraph α) : Except GErr (List (Int × Int)) := do
  let lens ← edge_geometry_lengths g "coordinates"
  .ok (rangesFromCumsum (cumsum lens))

/-- `set_edge_geometry_type` (lines 724-744): validates the mode string, is a
no-op on the current mode, and otherwise converts every name in
`edge_geometry_property_names` (computed once, while still in the old mode)
between the packed and the scattered representation, finally rewriting the
mode flag (`set_graph_property('edge_geometry_type', ...)`, a plain field
here) and invalidating the mesh cache (modelled separately). -/
def set_edge_geometry_type (g : EGraph α) (t : String) : Except GErr (EGraph α) :=
  if t != "graph" && t != "edge" then
    .error (.valueError ("Edge geometry must be graph or edge, got " ++ t))
  else if g.edgeGeometryType == t then
    .ok g
  else if g.edgeGeometryType == "graph" then do
    let indices ← edge_geometry_indices_graph g
    let g ← (edge_geometry_property_names g).foldlM (fun g name => do
        let values ← edge_geometry g name false
        let g := remove_edge_geometry_graph g name
        set_edge_geometry_edge g name values (some indices) none) g
    let g := remove_edge_geometry_indices_graph g
    .ok { g with edgeGeometryType := t }
  else do
    let g ← (edge_geometry_property_names g).foldlM (fun g name => do
        let values ← edge_geometry g name true
        let g ← remove_edge_geometry_edge g name
        set_edge_geometry_graph g name values none none) g
    .ok { g with edgeGeometryType := t }

/-- `_reduce_edge_geometry_properties` (lines 642-669): `n = indices_new[-1,
-1]` (an IndexError on an empty index array), then every packed geometry
property is remapped into a zero-initialised array of the new length
(`np.zeros` needs a sample value: `default`). -/
def reduce_edge_geometry_properties [Inhabited α] (g : EGraph α)
    (indices indices_new : List (Int × Int)) : Except GErr (EGraph α) := do
  match indices_new.getLast? with
  | none => .error (.indexError "index -1 is out of bounds")
  | some last =>
    let n := last.2
    (edge_geometry_property_names g).foldlM (fun g prop_name => do
        let prop ← graph_property g prop_name
        let prop_new : List α := List.replicate n.toNat default
        let prop_new ← remap_array_ranges prop prop_new indices indices_new
        set_graph_property g prop_name prop_new) g

/-- `resize_edge_geometry` (lines 628-640). -/
def resize_edge_geometry [Inhabited α] (g : EGraph α) : Except GErr (EGraph α) :=
  if !(has_edge_geometry g "coordinates") || g.edgeGeometryType != "graph" then
    .ok g
  else do
    let indices ← edge_geometry_indices_graph g
    let indices_new := compactRanges indices
    let g ← set_edge_geometry_indices_graph g indices_new
    reduce_edge_geometry_properties g indices indices_new

/-- `vf[v]` for a vertex filter. -/
def vertKept (vf : List Bool) (v : Nat) : Bool := vf.getD v false

/-- An edge survives a vertex filter iff both endpoints survive. -/
def edgeKept (vf : List Bool) (e : Nat × Nat) : Bool :=
  vertKept vf e.1 && vertKept vf e.2

/-- The dense renumbering of a surviving vertex: its rank among the kept. -/
def newVertexIndex (vf : List Bool) (v : Nat) : Nat := (vf.take v).count true

/-- Filter one edge property by the surviving-edge mask. -/
def filterEPropVal (v : EPropVal α) (mask : List Bool) : EPropVal α :=
  match v with
  | .ipairs xs => .ipairs (filterMask xs mask)
  | .avecs xs => .avecs (filterMask xs mask)

/-- Modelled from the spec: the external engine's pruning filter used by
`sub_graph` (line 831, `gt.Graph(gt.GraphView(base, vfilt), prune=True)`),
whose implementation lives in graph_tool, out of scope per spec section 6:
it keeps the vertices with a true filter entry, renumbered densely in
original relative order, keeps the edges whose both endpoints are kept (in
original relative order), filters every edge property by the surviving-edge
mask and copies the graph properties. -/
def pruneGraph (g : EGraph α) (vf : List Bool) : EGraph α :=
  let mask := g.edges.map (edgeKept vf)
  { nVertices := vf.count true
    edges := (g.edges.filter (edgeKept vf)).map
      (fun e => (newVertexIndex vf e.1, newVertexIndex vf e.2))
    edgeGeometryType := g.edgeGeometryType
    graphProps := g.graphProps
    edgeProps := g.edgeProps.map (fun p => (p.1, filterEPropVal p.2 mask)) }

/-- `sub_graph` with `view=False` (lines 826-833): prune through the engine,
then `resize_edge_geometry` on the new graph.  (The `view=True` branch
returns a non-owning façade and is not modelled.) -/
def sub_graph [Inhabited α] (g : EGraph α) (vertex_filter : List Bool) :
    Except GErr (EGraph α) :=
  resize_edge_geometry (pruneGraph g vertex_filter)

/-- Modelled from the spec: the per-label vertex counts returned by the
external engine's `label_components` (spec section 6: "connected-component
labeling returning a per-vertex label array and per-label counts"); labels
are consecutive ids starting at 0. -/
def labelCounts (components : List Nat) : List Nat :=
  (List.range ((components.foldr max 0) + 1)).map (fun c => components.count c)

/-- `np.argmax`: the first index at which a list attains its maximum. -/
def npArgmax (xs : List Nat) : Nat := xs.indexOf (xs.foldr max 0)

/-- `largest_component` with `view=False` (lines 854-858), taking the
engine-computed per-vertex component labels as input: pick the label with
the maximal vertex count via `np.argmax`, sub-graph on `components == i`. -/
def largest_component [Inhabited α] (g : EGraph α) (components : List Nat) :
    Except GErr (EGraph α) :=
  let counts := labelCounts components
  let i := npArgmax counts
  sub_graph g (components.map (fun c => c == i))

end GraphGt

namespace CacheModel

/-- The state of a `Graph` relevant to the derived-mesh cache: the three
cached fields `__mesh_vertices`, `__mesh_faces`, `__faces_edge_ids` (modelled
as one optional cached value `μ`), the structural data and the three
property tables (values abstract, `π`).  The structural updates themselves
are delegated to graph_tool and modelled minimally; what matters here is
which operations call `invalidate_caches` (lines 75-78). -/
structure CGraph (π μ : Type) where
  nVertices : Nat
  edges : List (Nat × Nat)
  vertexProps : List (String × π)
  edgeProps : List (String × π)
  graphProps : List (String × π)
  meshCache : Option μ
  deriving Repr, DecidableEq

open GraphGt (GErr alistContains alistInsert alistRemove)

/-- `invalidate_caches` (lines 75-78). -/
def invalidate_caches (g : CGraph π μ) : CGraph π μ :=
  { g with meshCache := none }

/-- `add_vertex` with a count (lines 130-140): mutates, then invalidates. -/
def add_vertex (g : CGraph π μ) (n : Nat) : CGraph π μ :=
  invalidate_caches { g with nVertices := g.nVertices + n }

/-- `remove_vertex` (lines 142-144). -/
def remove_vertex (g : CGraph π μ) (v : Nat) : CGraph π μ :=
  invalidate_caches
    { g with nVertices := g.nVertices - 1
             edges := g.edges.filter (fun e => e.1 != v && e.2 != v) }

/-- `add_edge` with a single pair (lines 244-249). -/
def add_edge (g : CGraph π μ) (e : Nat × Nat) : CGraph π μ :=
  invalidate_caches { g with edges := g.edges ++ [e] }

/-- `remove_edge` (lines 251-254). -/
def remove_edge (g : CGraph π μ) (e : Nat × Nat) : CGraph π μ :=
  invalidate_caches { g with edges := g.edges.erase e }

/-- `add_vertex_property` (lines 160-163): note that the
`invalidate_caches()` call is commented out in the source
(`# self.invalidate_caches()  # TODO: check if this is necessary`). -/
def add_vertex_property (g : CGraph π μ) (name : String) (v : π) : CGraph π μ :=
  { g with vertexProps := alistInsert g.vertexProps name v }

/-- `set_vertex_property` with `vertex=None` (lines 165-173): raises if the
property is absent; the `invalidate_caches()` call is commented out. -/
def set_vertex_property (g : CGraph π μ) (name : String) (v : π) :
    Except GErr (CGraph π μ) :=
  if alistContains g.vertexProps name then
    .ok { g with vertexProps := alistInsert g.vertexProps name v }
  else
    .error (.valueError ("Graph has no vertex property with name " ++ name))

/-- `define_vertex_property` with `vertex=None` (lines 175-184). -/
def define_vertex_property (g : CGraph π μ) (name : String) (v : π) : CGraph π μ :=
  if alistContains g.vertexProps name then
    { g with vertexProps := alistInsert g.vertexProps name v }
  else
    add_vertex_property g name v

/-- `remove_vertex_property` (lines 186-190): raises if absent, invalidates. -/
def remove_vertex_property (g : CGraph π μ) (name : String) :
    Except GErr (CGraph π μ) :=
  if alistContains g.vertexProps name then
    .ok (invalidate_caches { g with vertexProps := alistRemove g.vertexProps name })
  else
    .error (.valueError ("Graph has no vertex property with name " ++ name))

/-- `add_edge_property` (lines 280-283): invalidates. -/
def add_edge_property (g : CGraph π μ) (name : String) (v : π) : CGraph π μ :=
  invalidate_caches { g with edgeProps := alistInsert g.edgeProps name v }

/-- `set_edge_property` with `edge=None` (lines 285-293): raises if absent,
invalidates. -/
def set_edge_property (g : CGraph π μ) (name : String) (v : π) :
    Except GErr (CGraph π μ) :=
  if alistContains g.edgeProps name then
    .ok (invalidate_caches { g with edgeProps := alistInsert g.edgeProps name v })
  else
    .error (.valueError ("Graph has no edge property with name " ++ name))

/-- `remove_edge_property` (lines 306-310): raises if absent, invalidates. -/
def remove_edge_property (g : CGraph π μ) (name : String) :
    Except GErr (CGraph π μ) :=
  if alistContains g.edgeProps name then
    .ok (invalidate_caches { g with edgeProps := alistRemove g.edgeProps name })
  else
    .error (.valueError ("Graph does not have edge property with name " ++ name))

/-- `add_graph_property` (lines 341-348): invalidates. -/
def add_graph_property (g : CGraph π μ) (name : String) (v : π) : CGraph π μ :=
  invalidate_caches { g with graphProps := alistInsert g.graphProps name v }

/-- `set_graph_property` (lines 350-355): raises if absent, invalidates. -/
def set_graph_property (g : CGraph π μ) (name : String) (v : π) :
    Except GErr (CGraph π μ) :=
  if alistContains g.graphProps name then
    .ok (invalidate_caches { g with graphProps := alistInsert g.graphProps name v })
  else
    .error (.valueError ("Graph has no property named " ++ name))

/-- `remove_graph_property` (lines 363-367): raises if absent, invalidates. -/
def remove_graph_property (g : CGraph π μ) (name : String) :
    Except GErr (CGraph π μ) :=
  if alistContains g.graphProps name then
    .ok (invalidate_caches { g with graphProps := alistRemove g.graphProps name })
  else
    .error (.valueError ("Graph does not have graph property named " ++ name))

end CacheModel

namespace Morphology

open GraphGt (filterMask)

/-- One round of `edge_propagate` (lines 932-940): select the edges whose
label equals `value` (mask computed once per round), collect the incident
vertices of the selected connectivity rows (`np.unique` only dedups, which
is irrelevant for the writes), and set every edge incident to such a vertex
to `value` (the graphs here are undirected, so `out_edges` of a vertex are
all its incident edges). -/
def edgePropagateStep (ec : List (Nat × Nat)) (value : Bool)
    (label : List Bool) : List Bool :=
  let sel := label.map (fun b => b == value)
  let ecSel := filterMask ec sel
  let vertices := ecSel.map Prod.fst ++ ecSel.map Prod.snd
  (label.zip ec).map
    (fun be => if vertices.contains be.2.1 || vertices.contains be.2.2 then value
               else be.1)

/-- The `for s in range(steps)` loop of `edge_propagate`. -/
def edgePropagateIter (ec : List (Nat × Nat)) (value : Bool) :
    Nat → List Bool → List Bool
  | 0, label => label
  | s + 1, label => edgePropagateIter ec value s (edgePropagateStep ec value label)

/-- `edge_propagate` (lines 928-941) on the label values: the input is copied
first (`label = np.array(label)`), `steps=None` returns the copy unchanged,
otherwise `steps` rounds run on the copy.  See `edge_propagate_heap` for the
aliasing behaviour. -/
def edge_propagate (ec : List (Nat × Nat)) (label : List Bool) (value : Bool)
    (steps : Option Nat) : List Bool :=
  match steps with
  | none => label
  | some s => edgePropagateIter ec value s label

/-- `edge_dilate_binary` (lines 943-944). -/
def edge_dilate_binary (ec : List (Nat × Nat)) (label : List Bool)
    (steps : Nat) : List Bool :=
  edge_propagate ec label true (some steps)

/-- `edge_erode_binary` (lines 946-947). -/
def edge_erode_binary (ec : List (Nat × Nat)) (label : List Bool)
    (steps : Nat) : List Bool :=
  edge_propagate ec label false (some steps)

/-- `edge_propagate` with the caller's array made explicit: numpy arrays live
in a heap (a list of arrays addressed by position).  `label = np.array(label)`
allocates a fresh copy at a fresh address; all per-round writes go to that
copy, which is returned. -/
def edge_propagate_heap (ec : List (Nat × Nat)) (heap : List (List Bool))
    (labelId : Nat) (value : Bool) (steps : Option Nat) :
    List (List Bool) × Nat :=
  let copy := heap.getD labelId []
  let heap1 := heap ++ [copy]
  let newId := heap.length
  match steps with
  | none => (heap1, newId)
  | some s => (heap1.set newId (edgePropagateIter ec value s copy), newId)

end Morphology

namespace GraphGt

/-! ### Characterisation of the packing law -/

/-- Structural-recursion form of the packing law, used for proofs. -/
def canonRangesFrom (a : Int) : List Int → List (Int × Int)
  | [] => []
  | x :: ls => (a, a + x) :: canonRangesFrom (a + x) ls

theorem zip_dropLast_cons (b : Int) (c : List Int) :
    List.zip (List.dropLast (b :: c)) c = List.zip (b :: c.dropLast) c := by
  cases c <;> rfl

theorem zip_cumsumFrom (ls : List Int) :
    ∀ a : Int, List.zip (a :: (cumsumFrom a ls).dropLast) (cumsumFrom a ls)
      = canonRangesFrom a ls := by
  induction ls with
  | nil => intro a; rfl
  | cons x ls ih =>
      intro a
      show List.zip (a :: ((a + x) :: cumsumFrom (a + x) ls).dropLast)
          ((a + x) :: cumsumFrom (a + x) ls) = _
      rw [List.zip_cons_cons, zip_dropLast_cons, ih (a + x)]
      rfl

theorem computeRanges_eq_canon (ls : List Int) :
    computeRanges ls = canonRangesFrom 0 ls := by
  rw [computeRanges, rangesFromCumsum, cumsum, zip_cumsumFrom]

theorem canonRangesFrom_length (ls : List Int) :
    ∀ a : Int, (canonRangesFrom a ls).length = ls.length := by
  induction ls with
  | nil => intro a; rfl
  | cons x ls ih => intro a; simp [canonRangesFrom, ih]

theorem canonRangesFrom_map_sub (ls : List Int) :
    ∀ a : Int, (canonRangesFrom a ls).map (fun p => p.2 - p.1) = ls := by
  induction ls with
  | nil => intro a; rfl
  | cons x ls ih =>
      intro a
      simp only [canonRangesFrom, List.map_cons, ih]
      congr 1
      omega

theorem canonRangesFrom_getElem? (ls : List Int) :
    ∀ (a : Int) (i : Nat), i < ls.length →
      (canonRangesFrom a ls)[i]? =
        some (a + (ls.take i).sum, a + (ls.take (i + 1)).sum) := by
  induction ls with
  | nil => intro a i h; simp at h
  | cons x ls ih =>
      intro a i h
      cases i with
      | zero => simp [canonRangesFrom]
      | succ i =>
          have h' : i < ls.length := by simpa using h
          simp only [canonRangesFrom, List.getElem?_cons_succ]
          rw [ih (a + x) i h']
          simp only [List.take_succ_cons, List.sum_cons]
          congr 2 <;> omega

theorem canonRangesFrom_getLast?_snd (ls : List Int) (a : Int) (h : ls ≠ []) :
    ∃ p : Int × Int, (canonRangesFrom a ls).getLast? = some p ∧ p.2 = a + ls.sum := by
  have hlen : (canonRangesFrom a ls).length = ls.length := canonRangesFrom_length ls a
  have hpos : 0 < ls.length := List.length_pos.mpr h
  have hidx : ls.length - 1 < ls.length := by omega
  have hget := canonRangesFrom_getElem? ls a (ls.length - 1) hidx
  refine ⟨(a + (ls.take (ls.length - 1)).sum, a + (ls.take (ls.length - 1 + 1)).sum),
    ?_, ?_⟩
  · rw [List.getLast?_eq_getElem?, hlen, hget]
  · have : ls.length - 1 + 1 = ls.length := by omega
    rw [this, List.take_length]

theorem computeRanges_length (ls : List Int) :
    (computeRanges ls).length = ls.length := by
  rw [computeRanges_eq_canon, canonRangesFrom_length]

theorem computeRanges_map_sub (ls : List Int) :
    (computeRanges ls).map (fun p => p.2 - p.1) = ls := by
  rw [computeRanges_eq_canon, canonRangesFrom_map_sub]

theorem computeRanges_getElem? (ls : List Int) (i : Nat) (h : i < ls.length) :
    (computeRanges ls)[i]? = some ((ls.take i).sum, (ls.take (i + 1)).sum) := by
  rw [computeRanges_eq_canon, canonRangesFrom_getElem? ls 0 i h]
  simp

theorem computeRanges_getLast?_snd (ls : List Int) (h : ls ≠ []) :
    ∃ p : Int × Int, (computeRanges ls).getLast? = some p ∧ p.2 = ls.sum := by
  rw [computeRanges_eq_canon]
  have := canonRangesFrom_getLast?_snd ls 0 h
  simpa using this

theorem compactRanges_idem (r : List (Int × Int)) :
    compactRanges (compactRanges r) = compactRanges r := by
  show computeRanges ((computeRanges (r.map fun p => p.2 - p.1)).map fun p => p.2 - p.1)
      = _
  rw [computeRanges_map_sub]
  rfl

/-! ### Slicing a packed array at canonical ranges -/

theorem sliceArr_middle (pre v suf : List α) :
    sliceArr (pre ++ v ++ suf) (pre.length : Int) ((pre.length : Int) + (v.length : Int))
      = v := by
  have hcast : ((pre.length : Int) + (v.length : Int)).toNat = pre.length + v.length := by
    omega
  rw [sliceArr, hcast, Int.toNat_natCast, List.append_assoc, List.take_append,
    List.take_left, List.drop_left]

theorem map_sliceArr_canon (vs : List (List α)) :
    ∀ pre suf : List α,
      (canonRangesFrom (pre.length : Int) (vs.map fun v => (v.length : Int))).map
        (fun p => sliceArr (pre ++ vs.flatten ++ suf) p.1 p.2) = vs := by
  induction vs with
  | nil => intro pre suf; rfl
  | cons v vs ih =>
      intro pre suf
      have harr : pre ++ (v :: vs).flatten ++ suf = (pre ++ v) ++ (vs.flatten ++ suf) := by
        simp [List.append_assoc]
      have hlen : (pre.length : Int) + (v.length : Int) = ((pre ++ v).length : Int) := by
        simp
      simp only [List.map_cons, canonRangesFrom, List.map_cons]
      congr 1
      · rw [harr]
        exact sliceArr_middle pre v (vs.flatten ++ suf)
      · rw [hlen, harr, ← List.append_assoc]
        exact ih (pre ++ v) suf

theorem map_sliceArr_computeRanges (vs : List (List α)) :
    (computeRanges (vs.map fun v => (v.length : Int))).map
      (fun p => sliceArr vs.flatten p.1 p.2) = vs := by
  rw [computeRanges_eq_canon]
  have := map_sliceArr_canon vs [] []
  simpa using this

/-! ### Boolean-mask selection -/

theorem filterMask_map (f : β → γ) (xs : List β) :
    ∀ mask : List Bool, filterMask (xs.map f) mask = (filterMask xs mask).map f := by
  induction xs with
  | nil => intro mask; rfl
  | cons x xs ih =>
      intro mask
      cases mask with
      | nil => rfl
      | cons b mask =>
          cases b with
          | false =>
              simp only [filterMask, List.map_cons, List.zip_cons_cons] at *
              simpa using ih mask
          | true =>
              simp only [filterMask, List.map_cons, List.zip_cons_cons] at *
              simpa using ih mask

/-! ### The remap copy loop on a canonical tiling -/

theorem remapWrites_canon (cs : List (List α)) :
    ∀ (srcRs : List (Int × Int)) (old dst : List α) (a : Nat),
      srcRs.map (fun p => sliceArr old p.1 p.2) = cs →
      a + (cs.map List.length).sum ≤ dst.length →
      remapWrites old
          (srcRs.zip (canonRangesFrom (a : Int) (cs.map fun c => (c.length : Int)))) dst
        = dst.take a ++ cs.flatten ++ dst.drop (a + (cs.map List.length).sum) := by
  induction cs with
  | nil =>
      intro srcRs old dst a hsrc _
      have hs : srcRs = [] := by simpa using List.map_eq_nil_iff.mp hsrc
      subst hs
      simp [remapWrites, canonRangesFrom, List.take_append_drop]
  | cons c cs ih =>
      intro srcRs old dst a hsrc hbound
      cases srcRs with
      | nil => simp at hsrc
      | cons r rs =>
          simp only [List.map_cons, List.cons.injEq] at hsrc
          obtain ⟨hr, hrs⟩ := hsrc
          simp only [List.map_cons, canonRangesFrom, List.zip_cons_cons, remapWrites]
          have hwr : writeRange dst ((a : Int)).toNat (sliceArr old r.1 r.2)
              = dst.take a ++ c ++ dst.drop (a + c.length) := by
            rw [hr, Int.toNat_natCast, writeRange]
          rw [hwr]
          have hlen1 : (dst.take a ++ c).length = a + c.length := by
            simp only [List.length_append, List.length_take]
            have : a ≤ dst.length := by
              simp only [List.map_cons, List.sum_cons] at hbound
              omega
            omega
          have hcast : (a : Int) + (c.length : Int) = ((a + c.length : Nat) : Int) := by
            push_cast; ring
          rw [hcast]
          have hbound' : (a + c.length) + (cs.map List.length).sum
              ≤ (dst.take a ++ c ++ dst.drop (a + c.length)).length := by
            simp only [List.map_cons, List.sum_cons] at hbound
            simp only [List.length_append, List.length_take, List.length_drop]
            omega
          refine Eq.trans
            (ih rs old (dst.take a ++ c ++ dst.drop (a + c.length)) (a + c.length) hrs
              hbound') ?_
          have htake : (dst.take a ++ c ++ dst.drop (a + c.length)).take (a + c.length)
              = dst.take a ++ c := by
            rw [List.take_left' hlen1]
          have hdrop : ∀ m : Nat,
              (dst.take a ++ c ++ dst.drop (a + c.length)).drop ((a + c.length) + m)
                = dst.drop ((a + c.length) + m) := by
            intro m
            rw [show (a + c.length) + m = (dst.take a ++ c).length + m by rw [hlen1],
              List.drop_append, List.drop_drop]
            congr 1
            omega
          rw [htake, hdrop]
          simp only [List.flatten_cons, List.map_cons, List.sum_cons, List.append_assoc,
            Nat.add_assoc]

/-! ### Pointwise access to zipped lists -/

theorem zip_getElem?_of (as : List β) :
    ∀ (bs : List γ) (i : Nat) (x : β) (y : γ), as[i]? = some x → bs[i]? = some y →
      (as.zip bs)[i]? = some (x, y) := by
  induction as with
  | nil => intro bs i x y hx; simp at hx
  | cons a as ih =>
      intro bs i x y hx hy
      cases bs with
      | nil => simp at hy
      | cons b bs =>
          cases i with
          | zero =>
              simp only [List.getElem?_cons_zero, Option.some.injEq] at hx hy
              simp [List.zip_cons_cons, hx, hy]
          | succ i =>
              simp only [List.getElem?_cons_succ] at hx hy
              simpa [List.zip_cons_cons] using ih bs i x y hx hy

theorem zip_getElem?_split (as : List β) :
    ∀ (bs : List γ) (i : Nat) (pr : β × γ), (as.zip bs)[i]? = some pr →
      as[i]? = some pr.1 ∧ bs[i]? = some pr.2 := by
  induction as with
  | nil => intro bs i pr h; simp at h
  | cons a as ih =>
      intro bs i pr h
      cases bs with
      | nil => simp [List.zip_nil_right] at h
      | cons b bs =>
          cases i with
          | zero =>
              rw [List.zip_cons_cons, List.getElem?_cons_zero] at h
              cases h
              exact ⟨List.getElem?_cons_zero, List.getElem?_cons_zero⟩
          | succ i =>
              rw [List.zip_cons_cons, List.getElem?_cons_succ] at h
              simpa using ih bs i pr h

/-! ### Association-list updates -/

theorem find?_key_replace (k : String) (v : β) (ps : List (String × β)) :
    (ps.any fun p => p.1 == k) = true →
      List.find? (fun p => p.1 == k)
        (ps.map fun p => if p.1 == k then (k, v) else p) = some (k, v) := by
  induction ps with
  | nil => intro h; simp at h
  | cons q ps ih =>
      intro h
      by_cases hq : (q.1 == k) = true
      · simp only [List.map_cons, if_pos hq]
        exact List.find?_cons_of_pos _ (by simp)
      · simp only [List.map_cons, if_neg hq]
        rw [List.find?_cons_of_neg _ (by simpa using hq)]
        apply ih
        simp only [List.any_cons, Bool.or_eq_true] at h
        tauto

theorem find?_key_append (k : String) (v : β) (ps : List (String × β)) :
    (ps.any fun p => p.1 == k) = false →
      List.find? (fun p => p.1 == k) (ps ++ [(k, v)]) = some (k, v) := by
  induction ps with
  | nil =>
      intro _
      exact List.find?_cons_of_pos _ (by simp)
  | cons q ps ih =>
      intro h
      simp only [List.any_cons, Bool.or_eq_false_iff] at h
      rw [List.cons_append, List.find?_cons_of_neg _ (by simp [h.1])]
      exact ih h.2

theorem alistLookup_insert_self (ps : List (String × β)) (k : String) (v : β) :
    alistLookup (alistInsert ps k v) k = some v := by
  by_cases h : alistContains ps k = true
  · rw [alistInsert, if_pos h, alistLookup, find?_key_replace k v ps h]
    rfl
  · rw [alistInsert, if_neg h, alistLookup,
      find?_key_append k v ps (Bool.eq_false_iff.mpr h)]
    rfl

/-! ### The canonical packed state and the sub-graph pipeline -/

/-- A fresh graph with no geometry set (the state after construction and
`add_vertex`/`add_edge`, before any geometry write). -/
def mkBaseGraph (n : Nat) (es : List (Nat × Nat)) : EGraph α :=
  { nVertices := n, edges := es, edgeGeometryType := "graph",
    graphProps := [], edgeProps := [] }

/-- The packed-mode state after `set_edge_geometry('coordinates', vs)` on a
fresh graph: the flat array is the concatenation of the per-edge arrays and
the `indices` edge property holds the canonical ranges. -/
def packed_graph (n : Nat) (es : List (Nat × Nat)) (vs : List (List α)) : EGraph α :=
  { nVertices := n, edges := es, edgeGeometryType := "graph",
    graphProps := [("edge_geometry_coordinates", vs.flatten)],
    edgeProps := [("edge_geometry_indices",
      .ipairs (computeRanges (vs.map fun v => (v.length : Int))))] }

theorem set_edge_geometry_mkBase (n : Nat) (es : List (Nat × Nat))
    (vs : List (List α)) :
    set_edge_geometry (mkBaseGraph n es) "coordinates" (.lst vs) none none
      = .ok (packed_graph n es vs) := rfl

theorem edge_geometry_packed (n : Nat) (es : List (Nat × Nat))
    (vs : List (List α)) :
    edge_geometry (packed_graph n es vs) "coordinates" true = .ok (.lst vs) := by
  have h : edge_geometry (packed_graph n es vs) "coordinates" true
      = .ok (.lst ((computeRanges (vs.map fun v => (v.length : Int))).map
          (fun p => sliceArr vs.flatten p.1 p.2))) := rfl
  rw [h, map_sliceArr_computeRanges]

theorem except_bind_bind_ok (m : Except GErr β) (f : β → γ) :
    Except.bind (Except.bind m (fun x => Except.ok (f x))) (fun y => Except.ok y)
      = Except.map f m := by
  cases m <;> rfl

theorem reduce_singleton [Inhabited α] (n' : Nat) (es' : List (Nat × Nat))
    (ep : List (String × EPropVal α)) (F : List α) (indices R' : List (Int × Int))
    (p : Int × Int) (hlast : R'.getLast? = some p) :
    reduce_edge_geometry_properties
      { nVertices := n', edges := es', edgeGeometryType := "graph",
        graphProps := [("edge_geometry_coordinates", F)], edgeProps := ep }
      indices R'
    = Except.map
        (fun F' =>
          { nVertices := n', edges := es', edgeGeometryType := "graph",
            graphProps := [("edge_geometry_coordinates", F')], edgeProps := ep })
        (remap_array_ranges F (List.replicate p.2.toNat (default : α)) indices R') := by
  unfold reduce_edge_geometry_properties
  rw [hlast]
  refine Eq.trans ?_ (except_bind_bind_ok
    (remap_array_ranges F (List.replicate p.2.toNat (default : α)) indices R') _)
  rfl

theorem resize_step [Inhabited α] (n' : Nat) (es' : List (Nat × Nat))
    (vs ks : List (List α)) (Rk : List (Int × Int))
    (hdiff : Rk.map (fun p => p.2 - p.1) = ks.map fun v => (v.length : Int))
    (hslice : Rk.map (fun p => sliceArr vs.flatten p.1 p.2) = ks)
    (hne : ks ≠ []) :
    resize_edge_geometry
      { nVertices := n', edges := es', edgeGeometryType := "graph",
        graphProps := [("edge_geometry_coordinates", vs.flatten)],
        edgeProps := [("edge_geometry_indices", .ipairs Rk)] }
    = .ok { nVertices := n', edges := es', edgeGeometryType := "graph",
            graphProps := [("edge_geometry_coordinates", ks.flatten)],
            edgeProps := [("edge_geometry_indices",
              .ipairs (computeRanges (ks.map fun v => (v.length : Int))))] } := by
  have hmapne : (ks.map fun v => (v.length : Int)) ≠ [] := by
    simpa [List.map_eq_nil_iff] using hne
  obtain ⟨p, hlast, hp2⟩ :=
    computeRanges_getLast?_snd (ks.map fun v => (v.length : Int)) hmapne
  have hstep : resize_edge_geometry
      { nVertices := n', edges := es', edgeGeometryType := "graph",
        graphProps := [("edge_geometry_coordinates", vs.flatten)],
        edgeProps := [("edge_geometry_indices", .ipairs Rk)] }
      = reduce_edge_geometry_properties
        { nVertices := n', edges := es', edgeGeometryType := "graph",
          graphProps := [("edge_geometry_coordinates", vs.flatten)],
          edgeProps := [("edge_geometry_indices", .ipairs (compactRanges Rk))] }
        Rk (compactRanges Rk) := rfl
  rw [hstep, compactRanges, hdiff]
  rw [reduce_singleton n' es' _ _ _ _ p hlast]
  have hcast : (ks.map fun v => (v.length : Int)).sum
      = (((ks.map List.length).sum : Nat) : Int) := by
    rw [Nat.cast_list_sum, List.map_map]
    rfl
  have hsum : p.2.toNat = (ks.map List.length).sum := by
    rw [hp2, hcast, Int.toNat_natCast]
  rw [hsum]
  have hlenR : Rk.length = ks.length := by
    simpa using congrArg List.length hdiff
  have hdiffs : ∀ pr ∈ Rk.zip (computeRanges (ks.map fun v => (v.length : Int))),
      pr.1.2 - pr.1.1 = pr.2.2 - pr.2.1 := by
    intro pr hpr
    obtain ⟨i, hi⟩ := List.mem_iff_getElem?.mp hpr
    obtain ⟨h1, h2⟩ := zip_getElem?_split _ _ i pr hi
    have e1 : (Rk.map fun p => p.2 - p.1)[i]? = some (pr.1.2 - pr.1.1) := by
      rw [List.getElem?_map, h1]; rfl
    have e2 : ((computeRanges (ks.map fun v => (v.length : Int))).map
        fun p => p.2 - p.1)[i]? = some (pr.2.2 - pr.2.1) := by
      rw [List.getElem?_map, h2]; rfl
    rw [hdiff] at e1
    rw [computeRanges_map_sub] at e2
    exact Option.some.inj (e1.symm.trans e2)
  have hguard : (Rk.length == (computeRanges (ks.map fun v => (v.length : Int))).length
      && (Rk.zip (computeRanges (ks.map fun v => (v.length : Int)))).all
          (fun pr => pr.1.2 - pr.1.1 == pr.2.2 - pr.2.1)) = true := by
    rw [Bool.and_eq_true]
    constructor
    · rw [beq_iff_eq, hlenR, computeRanges_length]
      simp
    · rw [List.all_eq_true]
      intro pr hpr
      exact beq_iff_eq.mpr (hdiffs pr hpr)
  have hw := remapWrites_canon ks Rk vs.flatten
    (List.replicate ((ks.map List.length).sum) (default : α)) 0 hslice (by simp)
  rw [show ((0 : Nat) : Int) = (0 : Int) by simp, ← computeRanges_eq_canon] at hw
  have hremap : remap_array_ranges vs.flatten
      (List.replicate ((ks.map List.length).sum) (default : α)) Rk
      (computeRanges (ks.map fun v => (v.length : Int))) = .ok ks.flatten := by
    rw [remap_array_ranges, if_pos hguard, hw]
    simp
  rw [hremap]
  rfl

theorem sub_graph_packed [Inhabited α] (n : Nat) (es : List (Nat × Nat))
    (vs : List (List α)) (vf : List Bool)
    (hne : filterMask vs (es.map (edgeKept vf)) ≠ []) :
    sub_graph (packed_graph n es vs) vf
      = .ok (packed_graph (vf.count true)
          ((es.filter (edgeKept vf)).map fun e =>
            (newVertexIndex vf e.1, newVertexIndex vf e.2))
          (filterMask vs (es.map (edgeKept vf)))) := by
  have hprune : pruneGraph (packed_graph n es vs) vf
      = { nVertices := vf.count true
          edges := (es.filter (edgeKept vf)).map fun e =>
            (newVertexIndex vf e.1, newVertexIndex vf e.2)
          edgeGeometryType := "graph"
          graphProps := [("edge_geometry_coordinates", vs.flatten)]
          edgeProps := [("edge_geometry_indices",
            .ipairs (filterMask (computeRanges (vs.map fun v => (v.length : Int)))
              (es.map (edgeKept vf))))] } := rfl
  show resize_edge_geometry (pruneGraph (packed_graph n es vs) vf) = _
  rw [hprune]
  apply resize_step
  · rw [← filterMask_map, computeRanges_map_sub, filterMask_map]
  · rw [← filterMask_map, map_sliceArr_computeRanges]
  · exact hne

/-- Reading the `indices` edge property back after it has been stored. -/
theorem edge_geometry_indices_graph_eq (g : EGraph α) (R : List (Int × Int))
    (hl : alistLookup g.edgeProps edge_geometry_indices_name_graph
      = some (.ipairs R)) :
    edge_geometry_indices_graph g = .ok R := by
  unfold edge_geometry_indices_graph edge_property
  rw [hl]
  rfl

/-- `sum(L[:i])` over the int-cast lengths. -/
theorem sum_take_intLen (vs : List (List α)) (i : Nat) :
    ((vs.map fun v => (v.length : Int)).take i).sum
      = ((((vs.take i).map List.length).sum : Nat) : Int) := by
  rw [← List.map_take, Nat.cast_list_sum, List.map_map]
  rfl

/-- Two range lists with equal width maps have pointwise equal widths (with
the numpy out-of-range default giving width 0 on both sides). -/
theorem sub_getD_of_map_sub_eq (xs ys : List (Int × Int))
    (hm : xs.map (fun p => p.2 - p.1) = ys.map (fun p => p.2 - p.1)) (i : Nat) :
    (xs.getD i (0, 0)).2 - (xs.getD i (0, 0)).1
      = (ys.getD i (0, 0)).2 - (ys.getD i (0, 0)).1 := by
  have hlen : xs.length = ys.length := by
    simpa using congrArg List.length hm
  by_cases hi : i < xs.length
  · have hiy : i < ys.length := by omega
    have e1 : (xs.map fun p => p.2 - p.1)[i]? = some (xs[i].2 - xs[i].1) := by
      rw [List.getElem?_map, List.getElem?_eq_getElem hi]
      rfl
    have e2 : (ys.map fun p => p.2 - p.1)[i]? = some (ys[i].2 - ys[i].1) := by
      rw [List.getElem?_map, List.getElem?_eq_getElem hiy]
      rfl
    rw [hm] at e1
    have heq : xs[i].2 - xs[i].1 = ys[i].2 - ys[i].1 :=
      Option.some.inj (e1.symm.trans e2)
    rw [List.getD_eq_getElem?_getD, List.getD_eq_getElem?_getD,
      List.getElem?_eq_getElem hi, List.getElem?_eq_getElem hiy]
    simpa using heq
  · rw [List.getD_eq_default _ _ (by omega), List.getD_eq_default _ _ (by omega)]

/-! ### `np.argmax` and the component histogram -/

theorem foldr_max_mem : ∀ xs : List Nat, xs ≠ [] → xs.foldr max 0 ∈ xs := by
  intro xs
  induction xs with
  | nil => intro h; exact absurd rfl h
  | cons x xs ih =>
      intro _
      cases hx : xs with
      | nil => simp
      | cons y ys =>
          rw [← hx]
          have hmem := ih (by rw [hx]; exact List.cons_ne_nil y ys)
          show max x (xs.foldr max 0) ∈ x :: xs
          rcases Nat.le_total x (xs.foldr max 0) with h | h
          · rw [Nat.max_eq_right h]
            exact List.mem_cons_of_mem x hmem
          · rw [Nat.max_eq_left h]
            exact List.mem_cons_self x xs

theorem le_foldr_max (xs : List Nat) : ∀ x ∈ xs, x ≤ xs.foldr max 0 := by
  induction xs with
  | nil => intro x hx; simp at hx
  | cons y ys ih =>
      intro x hx
      rcases List.mem_cons.mp hx with rfl | hx'
      · exact Nat.le_max_left _ _
      · exact Nat.le_trans (ih x hx') (Nat.le_max_right _ _)

theorem getD_indexOf (xs : List Nat) (a : Nat) :
    a ∈ xs → xs.getD (xs.indexOf a) 0 = a := by
  induction xs with
  | nil => intro h; simp at h
  | cons x xs ih =>
      intro h
      by_cases hx : (x == a) = true
      · rw [List.indexOf_cons, hx, cond_true, List.getD_cons_zero]
        exact beq_iff_eq.mp hx
      · rw [List.indexOf_cons, Bool.eq_false_iff.mpr hx, cond_false,
          List.getD_cons_succ]
        refine ih ?_
        rcases List.mem_cons.mp h with rfl | h'
        · exact absurd (beq_iff_eq.mpr rfl) hx
        · exact h'

theorem getD_lt_indexOf_ne (xs : List Nat) (a : Nat) :
    ∀ j, j < xs.indexOf a → xs.getD j 0 ≠ a := by
  induction xs with
  | nil => intro j h; simp [List.indexOf] at h
  | cons x xs ih =>
      intro j hj
      by_cases hx : (x == a) = true
      · rw [List.indexOf_cons, hx, cond_true] at hj
        exact absurd hj (Nat.not_lt_zero j)
      · rw [List.indexOf_cons, Bool.eq_false_iff.mpr hx, cond_false] at hj
        cases j with
        | zero =>
            rw [List.getD_cons_zero]
            exact fun he => hx (beq_iff_eq.mpr he)
        | succ j =>
            rw [List.getD_cons_succ]
            exact ih j (by omega)

theorem labelCounts_ne_nil (components : List Nat) : labelCounts components ≠ [] := by
  have : (labelCounts components).length = components.foldr max 0 + 1 := by
    simp [labelCounts]
  intro h
  rw [h] at this
  simp at this

theorem labelCounts_getD (components : List Nat) (c : Nat)
    (h : c < (labelCounts components).length) :
    (labelCounts components).getD c 0 = components.count c := by
  have hlen : (labelCounts components).length = components.foldr max 0 + 1 := by
    simp [labelCounts]
  have hc : c < components.foldr max 0 + 1 := by omega
  rw [labelCounts, List.getD_eq_getElem?_getD, List.getElem?_map,
    List.getElem?_range hc]
  rfl

theorem getD_mem_of_lt (xs : List Nat) (c : Nat) (h : c < xs.length) :
    xs.getD c 0 ∈ xs := by
  rw [List.getD_eq_getElem?_getD, List.getElem?_eq_getElem h]
  exact List.getElem_mem h

theorem npArgmax_getD (xs : List Nat) (h : xs ≠ []) :
    xs.getD (npArgmax xs) 0 = xs.foldr max 0 :=
  getD_indexOf xs _ (foldr_max_mem xs h)

/-! ### Morphological propagation -/

theorem edgePropagateStep_length (ec : List (Nat × Nat)) (value : Bool)
    (label : List Bool) :
    (Morphology.edgePropagateStep ec value label).length
      = min label.length ec.length := by
  unfold Morphology.edgePropagateStep
  simp [List.length_zip]

theorem edgePropagateStep_true_mono (ec : List (Nat × Nat)) (label : List Bool)
    (hL : label.length = ec.length) (i : Nat)
    (h : label.getD i false = true) :
    (Morphology.edgePropagateStep ec true label).getD i false = true := by
  have hi : i < label.length := by
    by_contra hi
    rw [List.getD_eq_default _ _ (by omega)] at h
    exact Bool.false_ne_true h
  have hie : i < ec.length := by omega
  have h1 : label[i]? = some label[i] := List.getElem?_eq_getElem hi
  have h2 : ec[i]? = some ec[i] := List.getElem?_eq_getElem hie
  have hz := zip_getElem?_of label ec i label[i] ec[i] h1 h2
  have hlab : label[i] = true := by
    rw [List.getD_eq_getElem?_getD, h1] at h
    exact h
  rw [Morphology.edgePropagateStep, List.getD_eq_getElem?_getD, List.getElem?_map, hz]
  simp only [Option.map_some', Option.getD_some]
  split
  · rfl
  · exact hlab

theorem edgePropagateIter_true_mono (ec : List (Nat × Nat)) (steps : Nat) :
    ∀ (label : List Bool), label.length = ec.length → ∀ i,
      label.getD i false = true →
      (Morphology.edgePropagateIter ec true steps label).getD i false = true := by
  induction steps with
  | zero => intro label _ i h; exact h
  | succ s ih =>
      intro label hL i h
      show (Morphology.edgePropagateIter ec true s
        (Morphology.edgePropagateStep ec true label)).getD i false = true
      refine ih _ ?_ i (edgePropagateStep_true_mono ec label hL i h)
      rw [edgePropagateStep_length, hL, Nat.min_self]

theorem edgePropagateStep_false_anti (ec : List (Nat × Nat)) (label : List Bool)
    (i : Nat)
    (h : (Morphology.edgePropagateStep ec false label).getD i false = true) :
    label.getD i false = true := by
  by_cases hi : i < (label.zip ec).length
  · have hz : (label.zip ec)[i]? = some (label.zip ec)[i] := List.getElem?_eq_getElem hi
    obtain ⟨h1, h2⟩ := zip_getElem?_split label ec i _ hz
    rw [Morphology.edgePropagateStep, List.getD_eq_getElem?_getD, List.getElem?_map,
      hz] at h
    simp only [Option.map_some', Option.getD_some] at h
    rw [List.getD_eq_getElem?_getD, h1]
    revert h
    split
    · intro h; exact absurd h Bool.false_ne_true
    · intro h; exact h
  · rw [Morphology.edgePropagateStep, List.getD_eq_default] at h
    · exact absurd h Bool.false_ne_true
    · rw [List.length_map]
      omega

theorem edgePropagateIter_false_anti (ec : List (Nat × Nat)) (steps : Nat) :
    ∀ (label : List Bool) (i : Nat),
      (Morphology.edgePropagateIter ec false steps label).getD i false = true →
      label.getD i false = true := by
  induction steps with
  | zero => intro label i h; exact h
  | succ s ih =>
      intro label i h
      exact edgePropagateStep_false_anti ec label i
        (ih (Morphology.edgePropagateStep ec false label) i h)

/-! ### Heap facts for the aliasing model -/

theorem set_append_singleton (l : List β) (a b : β) :
    (l ++ [a]).set l.length b = l ++ [b] := by
  induction l with
  | nil => rfl
  | cons x xs ih => simp [ih]

theorem getD_append_singleton (l : List β) (a d : β) :
    (l ++ [a]).getD l.length d = a := by
  induction l with
  | nil => rfl
  | cons x xs ih => simp [ih]

end GraphGt

/-! ## The claims -/

open GraphGt

/-- The `_test` graph of the source (lines 1248-1253): 10 vertices, edges
`[(1,3),(2,5),(6,7),(7,9)]`, packed geometry mode. -/
def demoBase : EGraph Nat := mkBaseGraph 10 [(1, 3), (2, 5), (6, 7), (7, 9)]

/-- Concrete per-edge geometry with the lengths `[3,4,5,6]` of the source
test (line 1262). -/
def demoGeometry : List (List Nat) :=
  [[0, 1, 2], [10, 11, 12, 13], [20, 21, 22, 23, 24], [30, 31, 32, 33, 34, 35]]

/-- C1: the claimed lossless packed→scattered→packed round trip never
happens on this code: `set_edge_geometry_type` iterates
`edge_geometry_property_names`, which yields the *full* stored names
(`edge_geometry_coordinates`), and the accessors it calls
(`edge_geometry`, `_remove_edge_geometry_graph`, `_set_edge_geometry_edge`)
prefix the supplied name again, so converting a graph with populated packed
geometry to scattered mode looks up the graph property
`edge_geometry_edge_geometry_coordinates` and raises a `KeyError` instead of
converting. -/
theorem C1_convert_packed_to_scattered_raises :
    (do
      let g ← set_edge_geometry demoBase "coordinates" (.lst demoGeometry) none none
      set_edge_geometry_type g "edge")
      = Except.error (GErr.keyError "edge_geometry_edge_geometry_coordinates") := by
  rfl

/-- C2: a whole-graph packed geometry write from a list of per-edge arrays
with no explicit indices stores exactly the canonical ranges
`ranges[i] = (sum(L[:i]), sum(L[:i+1]))`; the sum of the range widths equals
the length of the stored flat array; and for the lengths `[3,4,5,6]` the
indices are `[(0,3),(3,7),(7,12),(12,18)]` with packed length 18. -/
theorem C2_packing_law {α : Type} (g : EGraph α) (name : String)
    (vs : List (List α)) :
    (set_edge_geometry_graph g name (.lst vs) none none).bind
        edge_geometry_indices_graph
      = .ok (computeRanges (vs.map fun v => (v.length : Int)))
    ∧ (∀ i, i < vs.length →
        (computeRanges (vs.map fun v => (v.length : Int)))[i]? =
          some (((((vs.take i).map List.length).sum : Nat) : Int),
            ((((vs.take (i + 1)).map List.length).sum : Nat) : Int)))
    ∧ ((computeRanges (vs.map fun v => (v.length : Int))).map
        fun p => p.2 - p.1).sum = ((vs.flatten.length : Nat) : Int)
    ∧ (computeRanges [3, 4, 5, 6] = [(0, 3), (3, 7), (7, 12), (12, 18)]
        ∧ ((computeRanges [3, 4, 5, 6]).map fun p => p.2 - p.1).sum = 18) := by
  refine ⟨?_, ?_, ?_, by decide⟩
  · refine edge_geometry_indices_graph_eq _ _ ?_
    exact alistLookup_insert_self g.edgeProps _ _
  · intro i hi
    rw [computeRanges_getElem? (vs.map fun v => (v.length : Int)) i (by simpa using hi),
      sum_take_intLen, sum_take_intLen]
  · rw [computeRanges_map_sub, List.length_flatten, Nat.cast_list_sum, List.map_map]
    rfl

/-- C2 witness: the packing law evaluated at a concrete input. -/
theorem C2_packing_law_witness :
    0 < ([[5], [6, 7]] : List (List Nat)).length
    ∧ (computeRanges (([[5], [6, 7]] : List (List Nat)).map fun v => (v.length : Int)))[0]?
        = some (0, 1)
    ∧ (set_edge_geometry_graph (mkBaseGraph 0 [] : EGraph Nat) "coordinates"
        (.lst [[5], [6, 7]]) none none).bind edge_geometry_indices_graph
      = .ok (computeRanges (([[5], [6, 7]] : List (List Nat)).map fun v => (v.length : Int))) := by
  refine ⟨by decide, ?_, (C2_packing_law (mkBaseGraph 0 []) "coordinates" [[5], [6, 7]]).1⟩
  have h := (C2_packing_law (mkBaseGraph 0 [] : EGraph Nat) "coordinates"
    [[5], [6, 7]]).2.1 0 (by decide)
  simpa using h

/-- C3: the range compaction of `resize_edge_geometry` is idempotent and
preserves each edge's range width `end - start`. -/
theorem C3_compaction_idem_length_preserving (r : List (Int × Int)) :
    compactRanges (compactRanges r) = compactRanges r
    ∧ ∀ i : Nat,
        ((compactRanges r).getD i (0, 0)).2 - ((compactRanges r).getD i (0, 0)).1
          = (r.getD i (0, 0)).2 - (r.getD i (0, 0)).1 := by
  refine ⟨compactRanges_idem r, ?_⟩
  intro i
  refine sub_getD_of_map_sub_eq _ _ ?_ i
  rw [compactRanges, computeRanges_map_sub]

/-- C3 witness: compaction of a gappy range list, evaluated. -/
theorem C3_compaction_witness :
    compactRanges (compactRanges [((2 : Int), (5 : Int)), (9, 13)])
        = compactRanges [((2 : Int), (5 : Int)), (9, 13)]
    ∧ compactRanges [((2 : Int), (5 : Int)), (9, 13)] = [(0, 3), (3, 7)] :=
  ⟨(C3_compaction_idem_length_preserving [((2 : Int), (5 : Int)), (9, 13)]).1,
    by decide⟩

/-- C4 counterexample: the claim quantifies over every vertex filter, but
when the filter leaves no surviving edge, `_reduce_edge_geometry_properties`
evaluates `indices_new[-1, -1]` on an empty index array and raises instead
of returning a compacted graph (here: filtering the scenario graph to the
single vertex 0 drops all four edges). -/
theorem C4_subgraph_empty_filter_raises :
    (do
      let g ← set_edge_geometry demoBase "coordinates" (.lst demoGeometry) none none
      sub_graph g [true, false, false, false, false, false, false, false, false, false])
      = Except.error (GErr.indexError "index -1 is out of bounds") := by
  rfl

/-- C4 (amended: provided at least one edge survives the vertex filter):
starting from a packed graph with geometry set for all edges,
`sub_graph(vertex_filter, view=False)` yields an independent graph whose
packed geometry is automatically compacted: the surviving edges keep exactly
their original sample arrays, the stored indices are the canonical ranges of
the surviving lengths, and the new packed array length is the sum of the
surviving sample counts. -/
theorem C4_subgraph_geometry_compaction {α : Type} [Inhabited α] (n : Nat)
    (es : List (Nat × Nat)) (vs : List (List α)) (vf : List Bool)
    (_hlen : vs.length = es.length)
    (hsurv : filterMask vs (es.map (edgeKept vf)) ≠ []) :
    set_edge_geometry (mkBaseGraph n es) "coordinates" (.lst vs) none none
        = .ok (packed_graph n es vs)
    ∧ sub_graph (packed_graph n es vs) vf
        = .ok (packed_graph (vf.count true)
            ((es.filter (edgeKept vf)).map fun e =>
              (newVertexIndex vf e.1, newVertexIndex vf e.2))
            (filterMask vs (es.map (edgeKept vf))))
    ∧ edge_geometry (packed_graph (vf.count true)
          ((es.filter (edgeKept vf)).map fun e =>
            (newVertexIndex vf e.1, newVertexIndex vf e.2))
          (filterMask vs (es.map (edgeKept vf)))) "coordinates" true
        = .ok (.lst (filterMask vs (es.map (edgeKept vf))))
    ∧ ((filterMask vs (es.map (edgeKept vf))).flatten).length
        = ((filterMask vs (es.map (edgeKept vf))).map List.length).sum :=
  ⟨set_edge_geometry_mkBase n es vs, sub_graph_packed n es vs vf hsurv,
    edge_geometry_packed _ _ _, List.length_flatten _⟩

/-- C4 witness: the spec scenario — 10 vertices, edges
`[(1,3),(2,5),(6,7),(7,9)]`, geometry lengths `[3,4,5,6]`, filter to
vertices `{0,...,4}`: only edge `(1,3)` survives, the compacted indices are
`[(0,3)]` and the packed array is exactly the three original samples of that
edge. -/
theorem C4_subgraph_geometry_witness :
    demoGeometry.length = ([(1, 3), (2, 5), (6, 7), (7, 9)] : List (Nat × Nat)).length
    ∧ filterMask demoGeometry (([(1, 3), (2, 5), (6, 7), (7, 9)] : List (Nat × Nat)).map
        (edgeKept [true, true, true, true, true, false, false, false, false, false])) ≠ []
    ∧ sub_graph (packed_graph 10 [(1, 3), (2, 5), (6, 7), (7, 9)] demoGeometry)
        [true, true, true, true, true, false, false, false, false, false]
      = .ok (packed_graph 5 [(1, 3)] [[0, 1, 2]])
    ∧ computeRanges [(3 : Int)] = [(0, 3)]
    ∧ ([[0, 1, 2]] : List (List Nat)).flatten.length = 3 := by
  refine ⟨by decide, by decide, ?_, by decide, by decide⟩
  exact (C4_subgraph_geometry_compaction 10 [(1, 3), (2, 5), (6, 7), (7, 9)]
    demoGeometry [true, true, true, true, true, false, false, false, false, false]
    (by decide) (by decide)).2.1

/-- C5: the (spec-modelled) `remap_array_ranges` fails with a
`ConsistencyError` whenever some old range's width differs from the
corresponding new range's width; in the `Except` model no destination array
is produced at all, so no write is committed and no sample is silently
dropped or duplicated. -/
theorem C5_remap_length_guard {α : Type} (old_array new_array : List α)
    (old_ranges new_ranges : List (Int × Int))
    (hmis : ∃ (i : Nat) (po pn : Int × Int),
      old_ranges[i]? = some po ∧ new_ranges[i]? = some pn
      ∧ po.2 - po.1 ≠ pn.2 - pn.1) :
    remap_array_ranges old_array new_array old_ranges new_ranges
      = .error (.consistencyError "remap_array_ranges: range length mismatch") := by
  obtain ⟨i, po, pn, h1, h2, hne⟩ := hmis
  have hcond : ¬ (old_ranges.length == new_ranges.length
      && (old_ranges.zip new_ranges).all
          (fun pr => pr.1.2 - pr.1.1 == pr.2.2 - pr.2.1)) = true := by
    intro hc
    rw [Bool.and_eq_true, List.all_eq_true] at hc
    have hmem : (po, pn) ∈ old_ranges.zip new_ranges :=
      List.mem_iff_getElem?.mpr ⟨i, zip_getElem?_of _ _ i po pn h1 h2⟩
    exact hne (beq_iff_eq.mp (hc.2 (po, pn) hmem))
  rw [remap_array_ranges, if_neg hcond]

/-- C5 witness: a width mismatch at index 0, evaluated. -/
theorem C5_remap_length_guard_witness :
    (∃ (i : Nat) (po pn : Int × Int), ([((0 : Int), (2 : Int))])[i]? = some po
      ∧ ([((0 : Int), (1 : Int))])[i]? = some pn ∧ po.2 - po.1 ≠ pn.2 - pn.1)
    ∧ remap_array_ranges [5, 6] ([0] : List Nat) [((0 : Int), (2 : Int))]
        [((0 : Int), (1 : Int))]
      = .error (.consistencyError "remap_array_ranges: range length mismatch") := by
  refine ⟨⟨0, (0, 2), (0, 1), by decide, by decide, by decide⟩, ?_⟩
  exact C5_remap_length_guard [5, 6] [0] [((0 : Int), (2 : Int))]
    [((0 : Int), (1 : Int))] ⟨0, (0, 2), (0, 1), by decide, by decide, by decide⟩

/-- C6: in packed ('graph') mode, `set_edge_geometry` with a specific edge
raises `NotImplementedError` before touching any state (the raise is the
first statement of `_set_edge_geometry_graph`, so the geometry store is
unchanged — in the `Except` model the error carries no mutated graph). -/
theorem C6_single_edge_write_packed_raises {α : Type} (g : EGraph α)
    (name : String) (values : GeomVal α) (indices : Option (List (Int × Int)))
    (e : Nat) (h : g.edgeGeometryType = "graph") :
    set_edge_geometry g name values indices (some e)
      = .error (.notImplementedError
          "Setting individual edge geometries not implemented for graph mode!") := by
  unfold set_edge_geometry
  rw [h]
  rfl

/-- C6 witness: a single-edge geometry write on the packed scenario graph. -/
theorem C6_single_edge_write_packed_witness :
    (packed_graph 10 [(1, 3), (2, 5), (6, 7), (7, 9)] demoGeometry).edgeGeometryType
        = "graph"
    ∧ set_edge_geometry (packed_graph 10 [(1, 3), (2, 5), (6, 7), (7, 9)] demoGeometry)
        "coordinates" (.flat [99]) none (some 0)
      = .error (.notImplementedError
          "Setting individual edge geometries not implemented for graph mode!") :=
  ⟨rfl, C6_single_edge_write_packed_raises _ "coordinates" (.flat [99]) none 0 rfl⟩

/-- A concrete graph state with a populated mesh cache. -/
def cacheDemo : CacheModel.CGraph Nat Nat :=
  { nVertices := 3, edges := [(0, 1)], vertexProps := [], edgeProps := [],
    graphProps := [], meshCache := some 7 }

/-- C7 counterexample: `add_vertex_property` is a property mutation after
which the cached mesh is still observable — the `invalidate_caches()` call
in `add_vertex_property` (line 163) is commented out in the source, so the
claim that *every* structural or property mutation invalidates the cache is
false. -/
theorem C7_add_vertex_property_keeps_stale_cache :
    (CacheModel.add_vertex_property cacheDemo "test" 0).meshCache = some 7
    ∧ (CacheModel.add_vertex_property cacheDemo "test" 0).vertexProps
        = [("test", 0)] := by
  exact ⟨rfl, rfl⟩

/-- C7 (amended): structural mutations (adding/removing vertices and edges),
all edge-property and graph-property mutations and vertex-property *removal*
invalidate the mesh cache, but `add_vertex_property` and
`set_vertex_property` (and hence `define_vertex_property`) leave the cache
untouched, so a stale mesh can be observed after a vertex-property write. -/
theorem C7_cache_invalidation_discipline {π μ : Type}
    (g : CacheModel.CGraph π μ) (name : String) (v : π) (nv : Nat)
    (e : Nat × Nat) :
    (CacheModel.add_vertex g nv).meshCache = none
    ∧ (CacheModel.remove_vertex g nv).meshCache = none
    ∧ (CacheModel.add_edge g e).meshCache = none
    ∧ (CacheModel.remove_edge g e).meshCache = none
    ∧ (CacheModel.add_edge_property g name v).meshCache = none
    ∧ (CacheModel.add_graph_property g name v).meshCache = none
    ∧ (∀ g', CacheModel.set_edge_property g name v = .ok g' → g'.meshCache = none)
    ∧ (∀ g', CacheModel.set_graph_property g name v = .ok g' → g'.meshCache = none)
    ∧ (∀ g', CacheModel.remove_vertex_property g name = .ok g' → g'.meshCache = none)
    ∧ (∀ g', CacheModel.remove_edge_property g name = .ok g' → g'.meshCache = none)
    ∧ (∀ g', CacheModel.remove_graph_property g name = .ok g' → g'.meshCache = none)
    ∧ (CacheModel.add_vertex_property g name v).meshCache = g.meshCache
    ∧ (∀ g', CacheModel.set_vertex_property g name v = .ok g' →
        g'.meshCache = g.meshCache)
    ∧ (CacheModel.define_vertex_property g name v).meshCache = g.meshCache := by
  refine ⟨rfl, rfl, rfl, rfl, rfl, rfl, ?_, ?_, ?_, ?_, ?_, rfl, ?_, ?_⟩
  · intro g' h
    unfold CacheModel.set_edge_property at h
    split at h
    · cases h; rfl
    · cases h
  · intro g' h
    unfold CacheModel.set_graph_property at h
    split at h
    · cases h; rfl
    · cases h
  · intro g' h
    unfold CacheModel.remove_vertex_property at h
    split at h
    · cases h; rfl
    · cases h
  · intro g' h
    unfold CacheModel.remove_edge_property at h
    split at h
    · cases h; rfl
    · cases h
  · intro g' h
    unfold CacheModel.remove_graph_property at h
    split at h
    · cases h; rfl
    · cases h
  · intro g' h
    unfold CacheModel.set_vertex_property at h
    split at h
    · cases h; rfl
    · cases h
  · unfold CacheModel.define_vertex_property
    split
    · rfl
    · rfl

/-- C7 witness: the invalidating and non-invalidating operations evaluated
on the concrete cached graph. -/
theorem C7_cache_invalidation_witness :
    (CacheModel.add_vertex cacheDemo 2).meshCache = none
    ∧ (CacheModel.add_edge_property cacheDemo "w" 1).meshCache = none
    ∧ (CacheModel.add_vertex_property cacheDemo "w" 1).meshCache
        = cacheDemo.meshCache :=
  ⟨(C7_cache_invalidation_discipline cacheDemo "w" 1 2 (0, 1)).1,
    (C7_cache_invalidation_discipline cacheDemo "w" 1 2 (0, 1)).2.2.2.2.1,
    (C7_cache_invalidation_discipline cacheDemo "w" 1 2 (0, 1)).2.2.2.2.2.2.2.2.2.2.2.1⟩

/-- C8: `largest_component` picks, from the engine-computed per-label vertex
counts, the label with the maximal count; ties go to the lowest label id
(the first hit of `np.argmax`); and the returned graph is the sub-graph on
the vertex filter `components == that label`. -/
theorem C8_largest_component_selection {α : Type} [Inhabited α] (g : EGraph α)
    (components : List Nat) (_h : components ≠ []) :
    (∀ c, c < (labelCounts components).length →
        (labelCounts components).getD c 0
          ≤ (labelCounts components).getD (npArgmax (labelCounts components)) 0)
    ∧ (∀ c, c < (labelCounts components).length →
        (labelCounts components).getD c 0
            = (labelCounts components).getD (npArgmax (labelCounts components)) 0 →
          npArgmax (labelCounts components) ≤ c)
    ∧ (∀ c, c < (labelCounts components).length →
        (labelCounts components).getD c 0 = components.count c)
    ∧ largest_component g components
        = sub_graph g (components.map fun c =>
            c == npArgmax (labelCounts components)) := by
  have hnil := labelCounts_ne_nil components
  have hmax := npArgmax_getD (labelCounts components) hnil
  refine ⟨?_, ?_, labelCounts_getD components, rfl⟩
  · intro c hc
    rw [hmax]
    exact le_foldr_max _ _ (getD_mem_of_lt _ c hc)
  · intro c hc heq
    by_contra hlt
    push_neg at hlt
    exact getD_lt_indexOf_ne _ _ c hlt (heq.trans hmax)

/-- C8 witness: a tie between labels 0 and 1 (two vertices each) is broken
towards label 0, and the result is the sub-graph on `components == 0`. -/
theorem C8_largest_component_witness :
    ([0, 1, 1, 0] : List Nat) ≠ []
    ∧ npArgmax (labelCounts [0, 1, 1, 0]) ≤ 1
    ∧ largest_component (mkBaseGraph 4 [] : EGraph Nat) [0, 1, 1, 0]
        = sub_graph (mkBaseGraph 4 [])
            ([0, 1, 1, 0].map fun c => c == npArgmax (labelCounts [0, 1, 1, 0])) := by
  refine ⟨by decide, ?_, (C8_largest_component_selection (mkBaseGraph 4 [])
    [0, 1, 1, 0] (by decide)).2.2.2⟩
  exact (C8_largest_component_selection (mkBaseGraph 4 [] : EGraph Nat)
    [0, 1, 1, 0] (by decide)).2.1 1 (by decide) (by decide)

/-- C9: over a label array aligned with the edge list, edge dilation
(`edge_propagate` with `value=True`) only ever turns labels on — its
True-set contains the input True-set after any number of rounds — and edge
erosion (`value=False`) only ever turns labels off — its True-set is
contained in the input True-set. -/
theorem C9_edge_morphology_monotone (ec : List (Nat × Nat)) (label : List Bool)
    (steps : Nat) (i : Nat) (hL : label.length = ec.length) :
    (label.getD i false = true →
      (Morphology.edge_dilate_binary ec label steps).getD i false = true)
    ∧ ((Morphology.edge_erode_binary ec label steps).getD i false = true →
      label.getD i false = true) :=
  ⟨fun h => edgePropagateIter_true_mono ec steps label hL i h,
    fun h => edgePropagateIter_false_anti ec steps label i h⟩

/-- C9 witness: one dilation and one erosion round on the path graph
`0-1-2-3-4`, evaluated at edge 0. -/
theorem C9_edge_morphology_witness :
    ([false, true, false, false] : List Bool).length
        = ([(0, 1), (1, 2), (2, 3), (3, 4)] : List (Nat × Nat)).length
    ∧ ([false, true, false, false] : List Bool).getD 1 false = true
    ∧ (Morphology.edge_dilate_binary [(0, 1), (1, 2), (2, 3), (3, 4)]
        [false, true, false, false] 1).getD 1 false = true
    ∧ ((Morphology.edge_erode_binary [(0, 1), (1, 2), (2, 3), (3, 4)]
        [true, true, true, false] 1).getD 0 false = true →
      ([true, true, true, false] : List Bool).getD 0 false = true) := by
  refine ⟨by decide, by decide, ?_, ?_⟩
  · exact (C9_edge_morphology_monotone [(0, 1), (1, 2), (2, 3), (3, 4)]
      [false, true, false, false] 1 1 (by decide)).1 (by decide)
  · exact (C9_edge_morphology_monotone [(0, 1), (1, 2), (2, 3), (3, 4)]
      [true, true, true, false] 1 0 (by decide)).2

/-- C10: `edge_propagate` never mutates the caller's label array: in the
heap model it allocates a fresh copy at a fresh address (every existing heap
cell, the argument included, is unchanged), returns that fresh address, and
the returned array holds exactly the pure propagation result of the input —
for `steps=None` the unmodified copy itself. -/
theorem C10_edge_propagate_no_aliasing (ec : List (Nat × Nat))
    (heap : List (List Bool)) (i : Nat) (value : Bool) (steps : Option Nat) :
    (Morphology.edge_propagate_heap ec heap i value steps).1.take heap.length = heap
    ∧ (Morphology.edge_propagate_heap ec heap i value steps).2 = heap.length
    ∧ (Morphology.edge_propagate_heap ec heap i value steps).1.getD heap.length []
        = Morphology.edge_propagate ec (heap.getD i []) value steps := by
  cases steps with
  | none =>
      exact ⟨List.take_left heap _, rfl, getD_append_singleton heap _ _⟩
  | some s =>
      refine ⟨?_, rfl, ?_⟩
      · rw [show (Morphology.edge_propagate_heap ec heap i value (some s)).1
            = (heap ++ [heap.getD i []]).set heap.length
                (Morphology.edgePropagateIter ec value s (heap.getD i []))
            from rfl, set_append_singleton, List.take_left]
      · rw [show (Morphology.edge_propagate_heap ec heap i value (some s)).1
            = (heap ++ [heap.getD i []]).set heap.length
                (Morphology.edgePropagateIter ec value s (heap.getD i []))
            from rfl, set_append_singleton, getD_append_singleton]
        rfl
